import Mathlib

/-!
Shallow embedding of the coalescing fetch cache (Go package `resource`,
file `main.go`).  The cache wraps a `Fetcher` and memoises its `Fetch`
method in a map from string identifiers to `item`s.

Modelling choices:
* The Go map `map[string]item` is an association list with unique keys;
  `assocGet` / `assocDel` mirror map lookup and `delete`.
* `time.Now().UnixNano()` is passed in explicitly as a `now : Int`
  parameter, so `item.expired` is the pure function of entry and clock
  the source computes.
* The Go pointer `*Model` is `Option Model` (`none` is `nil`); a Go
  `error` is the `Except.error` branch carrying the error message.
* The per-key lock (`FetchCache.Lock` / `Unlock`) totally orders the
  `Fetch` and `Clear` calls that share a key, so a group of same-key
  calls is embedded as a sequence of atomic state transitions on the
  store; `fetchN` runs such a lock-serialized batch.  The number of
  `Fetcher` invocations an operation performs is returned in the
  `calls` field so that invocation-counting properties can be stated.
* The lock-table bookkeeping of `Unlock` is embedded separately on a
  table of registered mutexes (`LockTable`), recording whether the
  release was a silent no-op, a normal release, or a runtime fault
  (Go panics when a mutex that is not locked is unlocked).
-/

namespace Resource

/-- Go `Model`: the resource value. -/
structure Model where
  Name : String
deriving DecidableEq, Repr

/-- Go `item`: a cached entry, a possibly-nil pointer to a `Model` and an
expiration timestamp in nanoseconds (`0` means never expires). -/
structure Item where
  Object : Option Model
  Expiration : Int
deriving DecidableEq, Repr

/-- Go `DefaultExpiration time.Duration = 0`, the value
`int64(DefaultExpiration)` stored by `cacheitem`. -/
def DefaultExpiration : Int := 0

/-- The cache store `items map[string]item`, as an association list. -/
abbrev Store := List (String × Item)

/-- Go map lookup `v, found := m[k]`. -/
def assocGet {α : Type} : List (String × α) → String → Option α
  | [], _ => none
  | (k, v) :: rest, id => if k = id then some v else assocGet rest id

/-- Go map `delete(m, k)`. -/
def assocDel {α : Type} : List (String × α) → String → List (String × α)
  | [], _ => []
  | (k, v) :: rest, id =>
      if k = id then assocDel rest id else (k, v) :: assocDel rest id

/-- Go map assignment `m[k] = v` (replaces any existing binding). -/
def assocSet {α : Type} (l : List (String × α)) (id : String) (v : α) :
    List (String × α) :=
  assocDel l id ++ [(id, v)]

/-- Go `(i *item) expired() bool`: never expired when `Expiration == 0`,
otherwise expired iff `time.Now().UnixNano() > i.Expiration`. -/
def Item.expired (i : Item) (now : Int) : Bool :=
  if i.Expiration = 0 then false else decide (now > i.Expiration)

/-- The injected Resource Source: Go interface `Fetcher`, a function from
identifier to either an error or a (possibly nil) `*Model`.  The Go
`context.Context` argument is not consulted by the cache and is dropped. -/
abbrev Fetcher := String → Except String (Option Model)

/-- Go `fetchFromCache`: look the id up; an absent or expired entry
yields `(item{}, false)`, a live one `(i, true)`. -/
def fetchFromCache (s : Store) (id : String) (now : Int) : Item × Bool :=
  match assocGet s id with
  | none => (⟨none, 0⟩, false)
  | some i => if i.expired now then (⟨none, 0⟩, false) else (i, true)

/-- Go `cacheitem`: store the model under `id` with
`Expiration: int64(DefaultExpiration)`. -/
def cacheitem (s : Store) (id : String) (m : Option Model) : Store :=
  assocSet s id ⟨m, DefaultExpiration⟩

deriving instance DecidableEq for Except

/-- Result of one `FetchCache.Fetch` call: the returned
`(*Model, error)` pair, the store it leaves behind, and how many times
it invoked the underlying `Fetcher`. -/
structure FetchRes where
  result : Except String (Option Model)
  store : Store
  calls : Nat
deriving DecidableEq, Repr

/-- Go `fetchFromFetcher`: call the source; on error return it and cache
nothing, on success cache the model and return it.  Always exactly one
source invocation. -/
def fetchFromFetcher (f : Fetcher) (s : Store) (id : String) : FetchRes :=
  match f id with
  | Except.error e => ⟨Except.error e, s, 1⟩
  | Except.ok m => ⟨Except.ok m, cacheitem s id m, 1⟩

/-- Go `FetchCache.Fetch` (the body between `Lock(id)` and
`Unlock(id)`): on a live cached entry return `item.Object, nil` without
touching the source, otherwise defer to `fetchFromFetcher`. -/
def Fetch (f : Fetcher) (s : Store) (now : Int) (id : String) : FetchRes :=
  match fetchFromCache s id now with
  | (it, true) => ⟨Except.ok it.Object, s, 0⟩
  | (_, false) => fetchFromFetcher f s id

/-- Go `FetchCache.Clear` (the body between `Lock(id)` and
`Unlock(id)`): remove the entry when present, otherwise return with the
store untouched. -/
def Clear (s : Store) (id : String) : Store :=
  match assocGet s id with
  | none => s
  | some _ => assocDel s id

/-- A lock-serialized batch of `n` `Fetch` calls for the same id: the
per-key lock totally orders same-key calls, so a group of concurrent
fetches executes as this sequence.  Returns the final store, the total
number of `Fetcher` invocations, and the list of results in order. -/
def fetchN (f : Fetcher) (now : Int) (id : String) :
    Nat → Store → Store × Nat × List (Except String (Option Model))
  | 0, s => (s, 0, [])
  | Nat.succ n, s =>
      let r := Fetch f s now id
      let rest := fetchN f now id n r.store
      (rest.1, r.calls + rest.2.1, r.result :: rest.2.2)

/-- The lock table `keyLock *sync.Map`: for each registered key, whether
its mutex is currently locked. -/
abbrev LockTable := List (String × Bool)

/-- Observable outcome of `FetchCache.Unlock`: `silent` when the key had
no registered mutex (the early `return`), `released` when a locked
mutex was unlocked, `fault` when the mutex was not locked (Go's
`sync.Mutex.Unlock` panics on an unlocked mutex). -/
inductive UnlockSignal where
  | silent
  | released
  | fault
deriving DecidableEq, Repr

/-- Lock table left by `Unlock` together with its observable outcome. -/
structure UnlockRes where
  table : LockTable
  signal : UnlockSignal
deriving DecidableEq, Repr

/-- Go `FetchCache.Unlock`: `Load` the key's mutex; if absent, return
silently; otherwise `Delete` the key and then unlock the mutex. -/
def Unlock (lt : LockTable) (key : String) : UnlockRes :=
  match assocGet lt key with
  | none => ⟨lt, UnlockSignal.silent⟩
  | some locked =>
      if locked then ⟨assocDel lt key, UnlockSignal.released⟩
      else ⟨assocDel lt key, UnlockSignal.fault⟩

/-- Every entry of the store is permanent (expiration is the zero
default). -/
def AllPermanent (s : Store) : Bool :=
  s.all fun p => p.2.Expiration == 0

/-- Cache stores reachable from the empty store by `Fetch` and `Clear`
transitions (each transition runs under the per-key lock). -/
inductive Reachable (f : Fetcher) : Store → Prop where
  | init : Reachable f []
  | fetch (now : Int) (id : String) {s : Store} (h : Reachable f s) :
      Reachable f (Fetch f s now id).store
  | clear (id : String) {s : Store} (h : Reachable f s) :
      Reachable f (Clear s id)

/-! ### Association-list (Go map) lemmas -/

theorem assocGet_del_self {α : Type} (l : List (String × α)) (id : String) :
    assocGet (assocDel l id) id = none := by
  induction l with
  | nil => rfl
  | cons p rest ih =>
      obtain ⟨k, v⟩ := p
      by_cases hk : k = id
      · simp [assocDel, hk, ih]
      · simp [assocDel, assocGet, hk, ih]

theorem assocGet_del_other {α : Type} (l : List (String × α)) (id k : String)
    (h : k ≠ id) : assocGet (assocDel l id) k = assocGet l k := by
  have hik : ¬(id = k) := fun he => h he.symm
  induction l with
  | nil => rfl
  | cons p rest ih =>
      obtain ⟨k2, v⟩ := p
      by_cases hk : k2 = id
      · subst hk
        simp [assocDel, assocGet, hik, ih]
      · simp [assocDel, assocGet, hk, ih]

theorem assocGet_append_none {α : Type} (l1 l2 : List (String × α)) (k : String)
    (h : assocGet l1 k = none) : assocGet (l1 ++ l2) k = assocGet l2 k := by
  induction l1 with
  | nil => rfl
  | cons p rest ih =>
      obtain ⟨k2, v⟩ := p
      by_cases hk : k2 = k
      · simp [assocGet, hk] at h
      · simp [assocGet, hk] at h ⊢
        exact ih h

theorem assocGet_append_some {α : Type} (l1 l2 : List (String × α)) (k : String)
    (w : α) (h : assocGet l1 k = some w) :
    assocGet (l1 ++ l2) k = some w := by
  induction l1 with
  | nil => simp [assocGet] at h
  | cons p rest ih =>
      obtain ⟨k2, v⟩ := p
      by_cases hk : k2 = k
      · simp [assocGet, hk] at h ⊢
        exact h
      · simp [assocGet, hk] at h ⊢
        exact ih h

theorem assocGet_set_self {α : Type} (l : List (String × α)) (id : String)
    (v : α) : assocGet (assocSet l id v) id = some v := by
  rw [assocSet, assocGet_append_none _ _ id (assocGet_del_self l id)]
  simp [assocGet]

theorem assocGet_set_other {α : Type} (l : List (String × α)) (id k : String)
    (v : α) (h : k ≠ id) : assocGet (assocSet l id v) k = assocGet l k := by
  have hik : ¬(id = k) := fun he => h he.symm
  rw [assocSet]
  cases hc : assocGet (assocDel l id) k with
  | none =>
      rw [assocGet_append_none _ _ k hc, ← assocGet_del_other l id k h, hc]
      simp [assocGet, hik]
  | some w =>
      rw [assocGet_append_some _ _ k w hc, ← assocGet_del_other l id k h, hc]

theorem all_assocDel {α : Type} (l : List (String × α)) (id : String)
    (p : String × α → Bool) (h : l.all p = true) :
    (assocDel l id).all p = true := by
  induction l with
  | nil => rfl
  | cons q rest ih =>
      obtain ⟨k, v⟩ := q
      rw [List.all_cons, Bool.and_eq_true] at h
      by_cases hk : k = id
      · simp [assocDel, hk, ih h.2]
      · simp [assocDel, hk, h.1, ih h.2]

/-! ### Expiration lemmas -/

theorem expired_mono (i : Item) (now now2 : Int) (h : i.expired now = true)
    (hle : now ≤ now2) : i.expired now2 = true := by
  unfold Item.expired at h ⊢
  by_cases h0 : i.Expiration = 0
  · simp [h0] at h
  · simp only [h0, if_false, decide_eq_true_eq, gt_iff_lt] at h ⊢
    omega

/-! ### fetchFromCache lemmas -/

theorem fetchFromCache_none (s : Store) (id : String) (now : Int)
    (hget : assocGet s id = none) :
    fetchFromCache s id now = (⟨none, 0⟩, false) := by
  simp [fetchFromCache, hget]

theorem fetchFromCache_expired (s : Store) (id : String) (now : Int) (i : Item)
    (hget : assocGet s id = some i) (hexp : i.expired now = true) :
    fetchFromCache s id now = (⟨none, 0⟩, false) := by
  simp [fetchFromCache, hget, hexp]

theorem fetchFromCache_hit (s : Store) (id : String) (now : Int) (i : Item)
    (hget : assocGet s id = some i) (hlive : i.expired now = false) :
    fetchFromCache s id now = (i, true) := by
  simp [fetchFromCache, hget, hlive]

theorem miss_mono (s : Store) (id : String) (now now2 : Int)
    (hmiss : (fetchFromCache s id now).2 = false) (hle : now ≤ now2) :
    (fetchFromCache s id now2).2 = false := by
  cases hget : assocGet s id with
  | none => rw [fetchFromCache_none s id now2 hget]
  | some i =>
      cases hexp : i.expired now with
      | false => rw [fetchFromCache_hit s id now i hget hexp] at hmiss; simp at hmiss
      | true =>
          rw [fetchFromCache_expired s id now2 i hget
            (expired_mono i now now2 hexp hle)]

/-! ### Fetch lemmas -/

theorem fetch_hit (f : Fetcher) (s : Store) (now : Int) (id : String) (i : Item)
    (hget : assocGet s id = some i) (hlive : i.expired now = false) :
    Fetch f s now id = ⟨Except.ok i.Object, s, 0⟩ := by
  simp [Fetch, fetchFromCache_hit s id now i hget hlive]

theorem fetch_miss (f : Fetcher) (s : Store) (now : Int) (id : String)
    (hmiss : (fetchFromCache s id now).2 = false) :
    Fetch f s now id = fetchFromFetcher f s id := by
  rcases hfc : fetchFromCache s id now with ⟨it, b⟩
  rw [hfc] at hmiss
  cases b
  · simp [Fetch, hfc]
  · simp at hmiss

theorem fetchFromFetcher_calls (f : Fetcher) (s : Store) (id : String) :
    (fetchFromFetcher f s id).calls = 1 := by
  rcases hf : f id with e | m <;> simp [fetchFromFetcher, hf]

theorem fetch_miss_calls (f : Fetcher) (s : Store) (now : Int) (id : String)
    (hmiss : (fetchFromCache s id now).2 = false) :
    (Fetch f s now id).calls = 1 := by
  rw [fetch_miss f s now id hmiss]; exact fetchFromFetcher_calls f s id

theorem fetch_store_cases (f : Fetcher) (s : Store) (now : Int) (id : String) :
    (Fetch f s now id).store = s ∨
      ∃ m, f id = Except.ok m ∧ (Fetch f s now id).store = cacheitem s id m := by
  rcases hfc : fetchFromCache s id now with ⟨it, b⟩
  cases b
  · rcases hf : f id with e | m
    · left; simp [Fetch, hfc, fetchFromFetcher, hf]
    · right
      refine ⟨m, rfl, ?_⟩
      simp [Fetch, hfc, fetchFromFetcher, hf]
  · left; simp [Fetch, hfc]

/-! ### Clear lemmas -/

theorem clear_store_cases (s : Store) (id : String) :
    Clear s id = s ∨ Clear s id = assocDel s id := by
  unfold Clear; cases assocGet s id <;> simp

theorem clear_get_self (s : Store) (id : String) :
    assocGet (Clear s id) id = none := by
  unfold Clear
  cases hget : assocGet s id with
  | none => exact hget
  | some i => exact assocGet_del_self s id

/-! ### Permanence and fetchN lemmas -/

theorem allPermanent_cacheitem (s : Store) (id : String) (m : Option Model)
    (h : AllPermanent s = true) : AllPermanent (cacheitem s id m) = true := by
  unfold AllPermanent at h ⊢
  unfold cacheitem assocSet
  rw [List.all_append, Bool.and_eq_true]
  exact ⟨all_assocDel s id _ h, by simp [DefaultExpiration]⟩

theorem fetchN_hit (f : Fetcher) (now : Int) (id : String) (i : Item)
    (n : Nat) (s : Store) (hget : assocGet s id = some i)
    (hlive : i.expired now = false) :
    fetchN f now id n s = (s, 0, List.replicate n (Except.ok i.Object)) := by
  induction n with
  | zero => rfl
  | succ n ih =>
      simp [fetchN, fetch_hit f s now id i hget hlive, ih, List.replicate_succ]

/-! ### Claim theorems -/

/-- C1 (counterexample): the coalescing property as stated fails when the
Resource Source fails.  Two lock-serialized `fetch` calls for key `"Y"`
against the empty cache, with a source that always errors, invoke the
source twice, not exactly once (the code deliberately does not cache
errors). -/
theorem coalescing_cex :
    (fetchN (fun _ => Except.error "not found") 0 "Y" 2 []).2.1 = 2 ∧
    (fetchN (fun _ => Except.error "not found") 0 "Y" 2 []).2.1 ≠ 1 := by
  decide

/-- C1 (amended): when the Resource Source succeeds for `id`, a
lock-serialized batch of `M ≥ 1` `fetch` calls for `id` against the
empty cache invokes the source exactly once, every call returns the same
value, and the final store caches that value permanently. -/
theorem coalescing_success (f : Fetcher) (now : Int) (id : String)
    (m : Option Model) (M : Nat) (hf : f id = Except.ok m) (hM : 1 ≤ M) :
    fetchN f now id M [] =
      ([(id, ⟨m, DefaultExpiration⟩)], 1, List.replicate M (Except.ok m)) := by
  obtain ⟨n, rfl⟩ : ∃ n, M = n + 1 := ⟨M - 1, by omega⟩
  have h1 : Fetch f [] now id =
      ⟨Except.ok m, [(id, ⟨m, DefaultExpiration⟩)], 1⟩ := by
    have hmiss : fetchFromCache [] id now = (⟨none, 0⟩, false) := rfl
    simp [Fetch, hmiss, fetchFromFetcher, hf, cacheitem, assocSet, assocDel]
  have hget : assocGet ([(id, ⟨m, DefaultExpiration⟩)] : Store) id =
      some ⟨m, DefaultExpiration⟩ := by simp [assocGet]
  have hrest := fetchN_hit f now id ⟨m, DefaultExpiration⟩ n
    ([(id, ⟨m, DefaultExpiration⟩)] : Store) hget rfl
  simp [fetchN, h1, hrest, List.replicate_succ]

/-- C1 witness: three coalesced fetches for `"X"` with a source returning
`{Name: "lorem"}` make one source call and all return that model. -/
theorem coalescing_success_witness :
    fetchN (fun _ => Except.ok (some ⟨"lorem"⟩)) 0 "X" 3 [] =
      ([("X", ⟨some ⟨"lorem"⟩, 0⟩)], 1,
        List.replicate 3 (Except.ok (some ⟨"lorem"⟩))) :=
  coalescing_success _ 0 "X" (some ⟨"lorem"⟩) 3 rfl (by decide)

/-- C2: when the store holds a live (non-expired) entry for `id`, `Fetch`
returns the stored value with no error, leaves the store unchanged, and
makes zero calls to the Resource Source. -/
theorem cache_hit_no_source (f : Fetcher) (s : Store) (now : Int)
    (id : String) (i : Item) (hget : assocGet s id = some i)
    (hlive : i.expired now = false) :
    Fetch f s now id = ⟨Except.ok i.Object, s, 0⟩ :=
  fetch_hit f s now id i hget hlive

/-- C2 witness: a hit on a cached `"lorem"` entry returns it with zero
source calls even though the source would error. -/
theorem cache_hit_no_source_witness :
    Fetch (fun _ => Except.error "boom") [("X", ⟨some ⟨"lorem"⟩, 0⟩)] 0 "X" =
      ⟨Except.ok (some ⟨"lorem"⟩), [("X", ⟨some ⟨"lorem"⟩, 0⟩)], 0⟩ :=
  cache_hit_no_source _ _ 0 "X" ⟨some ⟨"lorem"⟩, 0⟩ (by simp [assocGet]) rfl

/-- C3: when the lookup misses and the Resource Source fails, `Fetch`
returns that error unchanged with exactly one source call and an
identical store, and the next `Fetch` for the same id (at any later
time) invokes the source again. -/
theorem error_not_cached (f : Fetcher) (s : Store) (now now2 : Int)
    (id e : String) (hmiss : (fetchFromCache s id now).2 = false)
    (hf : f id = Except.error e) (hle : now ≤ now2) :
    Fetch f s now id = ⟨Except.error e, s, 1⟩ ∧
    (Fetch f s now2 id).calls = 1 := by
  constructor
  · rw [fetch_miss f s now id hmiss]
    simp [fetchFromFetcher, hf]
  · exact fetch_miss_calls f s now2 id (miss_mono s id now now2 hmiss hle)

/-- C3 witness: a failing source on the empty cache propagates
`"not found"`, stores nothing, and the retry calls the source again. -/
theorem error_not_cached_witness :
    Fetch (fun _ => Except.error "not found") [] 0 "Y" =
      ⟨Except.error "not found", [], 1⟩ ∧
    (Fetch (fun _ => Except.error "not found") [] 0 "Y").calls = 1 :=
  error_not_cached _ [] 0 0 "Y" "not found" rfl rfl (le_refl 0)

/-- C4: the expiration check is the pure function of entry and clock
embedded as `Item.expired` (it performs no state update by
construction): an entry with zero expiration timestamp is never expired,
otherwise it is expired iff the current time strictly exceeds the stored
timestamp. -/
theorem expired_characterization (i : Item) (now : Int) :
    i.expired now = true ↔ i.Expiration ≠ 0 ∧ i.Expiration < now := by
  unfold Item.expired
  by_cases h0 : i.Expiration = 0 <;> simp [h0]

/-- C4 witness: an entry stamped `5` is expired at time `10`. -/
theorem expired_characterization_witness :
    (⟨some ⟨"x"⟩, 5⟩ : Item).expired 10 = true :=
  (expired_characterization ⟨some ⟨"x"⟩, 5⟩ 10).mpr (by decide)

/-- C5: every store reachable from the empty cache by `Fetch` and
`Clear` transitions contains only permanent entries (expiration is the
zero default), since a successful fetch always stores
`int64(DefaultExpiration)`. -/
theorem all_entries_permanent (f : Fetcher) (s : Store)
    (h : Reachable f s) : AllPermanent s = true := by
  induction h with
  | init => rfl
  | fetch now id h ih =>
      rcases fetch_store_cases f _ now id with hs | ⟨m, _, hs⟩ <;> rw [hs]
      · exact ih
      · exact allPermanent_cacheitem _ id m ih
  | clear id h ih =>
      rcases clear_store_cases _ id with hs | hs <;> rw [hs]
      · exact ih
      · unfold AllPermanent at ih ⊢
        exact all_assocDel _ id _ ih

/-- C5 witness: the store after one successful fetch on the empty cache
has only permanent entries. -/
theorem all_entries_permanent_witness :
    AllPermanent (Fetch (fun _ => Except.ok (some ⟨"w"⟩)) [] 0 "a").store
      = true :=
  all_entries_permanent (fun _ => Except.ok (some ⟨"w"⟩)) _
    (Reachable.fetch 0 "a" Reachable.init)

/-- C6: a lookup never returns an expired value: when it reports `found`
it returns exactly the stored live entry, and on an expired entry it
returns precisely what it returns for a key absent from the store. -/
theorem lookup_never_expired (s : Store) (id : String) (now : Int) :
    ((fetchFromCache s id now).2 = true →
        assocGet s id = some (fetchFromCache s id now).1 ∧
        (fetchFromCache s id now).1.expired now = false) ∧
    (∀ i, assocGet s id = some i → i.expired now = true →
        fetchFromCache s id now = fetchFromCache [] id now) := by
  constructor
  · intro hfound
    cases hget : assocGet s id with
    | none =>
        rw [fetchFromCache_none s id now hget] at hfound
        simp at hfound
    | some i =>
        cases hexp : i.expired now with
        | true =>
            rw [fetchFromCache_expired s id now i hget hexp] at hfound
            simp at hfound
        | false =>
            rw [fetchFromCache_hit s id now i hget hexp]
            exact ⟨rfl, hexp⟩
  · intro i hget hexp
    rw [fetchFromCache_expired s id now i hget hexp]
    rfl

/-- C6 witness: an entry stamped `5` looked up at time `10` is treated
exactly like a missing key. -/
theorem lookup_never_expired_witness :
    fetchFromCache [("a", ⟨some ⟨"x"⟩, 5⟩)] "a" 10 =
      fetchFromCache [] "a" 10 :=
  (lookup_never_expired [("a", ⟨some ⟨"x"⟩, 5⟩)] "a" 10).2
    ⟨some ⟨"x"⟩, 5⟩ (by simp [assocGet]) (by decide)

/-- C7: after `Clear s id` the store contains no entry for `id`, and the
next `Fetch` for `id` invokes the Resource Source (exactly one source
call), whatever the source then returns. -/
theorem invalidate_removes (f : Fetcher) (s : Store) (now : Int)
    (id : String) :
    assocGet (Clear s id) id = none ∧
    (Fetch f (Clear s id) now id).calls = 1 := by
  refine ⟨clear_get_self s id, fetch_miss_calls f _ now id ?_⟩
  rw [fetchFromCache_none _ id now (clear_get_self s id)]

/-- C8: invalidation is idempotent: clearing an absent key returns the
store unchanged (and, being total, cannot error), and clearing twice
equals clearing once. -/
theorem invalidate_idempotent (s : Store) (id : String) :
    (assocGet s id = none → Clear s id = s) ∧
    Clear (Clear s id) id = Clear s id := by
  have habs : ∀ t : Store, assocGet t id = none → Clear t id = t := by
    intro t ht
    unfold Clear
    rw [ht]
  exact ⟨habs s, habs _ (clear_get_self s id)⟩

/-- C8 witness: clearing `"a"` on the empty store is a no-op. -/
theorem invalidate_idempotent_witness : Clear ([] : Store) "a" = [] :=
  (invalidate_idempotent [] "a").1 rfl

/-- C9 (counterexample): releasing the per-key lock for a key the caller
does not hold is not detected: with an empty lock table (so no caller
holds `"k"`), `Unlock` silently proceeds — it returns the `silent`
outcome, not the `fault` one, and leaves the table unchanged. -/
theorem unlock_unheld_silent_cex :
    Unlock [] "k" = ⟨[], UnlockSignal.silent⟩ ∧
    UnlockSignal.silent ≠ UnlockSignal.fault := by
  decide

/-- C9 (amended): releasing a key with no registered mutex is a silent
no-op that leaves the lock table unchanged; only a release that reaches
a registered but unlocked mutex faults (Go panics on unlocking an
unlocked mutex), so misuse is not a checked precondition. -/
theorem unlock_behavior (lt : LockTable) (key : String) :
    (assocGet lt key = none → Unlock lt key = ⟨lt, UnlockSignal.silent⟩) ∧
    (assocGet lt key = some false →
        (Unlock lt key).signal = UnlockSignal.fault) := by
  constructor
  · intro h
    unfold Unlock
    rw [h]
  · intro h
    unfold Unlock
    rw [h]
    rfl

/-- C9 witness: a release reaching a registered unlocked mutex faults. -/
theorem unlock_behavior_witness :
    (Unlock [("k", false)] "k").signal = UnlockSignal.fault :=
  (unlock_behavior [("k", false)] "k").2 (by simp [assocGet])

/-- C10: `Fetch` and `Clear` for identifier `id` leave the entry of
every other key `k` untouched. -/
theorem frame_other_keys (f : Fetcher) (s : Store) (now : Int)
    (id k : String) (hne : k ≠ id) :
    assocGet (Fetch f s now id).store k = assocGet s k ∧
    assocGet (Clear s id) k = assocGet s k := by
  constructor
  · rcases fetch_store_cases f s now id with hs | ⟨m, _, hs⟩ <;> rw [hs]
    unfold cacheitem
    exact assocGet_set_other s id k _ hne
  · rcases clear_store_cases s id with hs | hs <;> rw [hs]
    exact assocGet_del_other s id k hne

/-- C10 witness: fetching and clearing `"a"` leave the entry for `"b"`
unchanged. -/
theorem frame_other_keys_witness :
    assocGet (Fetch (fun _ => Except.ok (some ⟨"v"⟩))
        [("b", ⟨some ⟨"w"⟩, 0⟩)] 0 "a").store "b" =
      assocGet [("b", ⟨some ⟨"w"⟩, 0⟩)] "b" ∧
    assocGet (Clear [("b", ⟨some ⟨"w"⟩, 0⟩)] "a") "b" =
      assocGet [("b", ⟨some ⟨"w"⟩, 0⟩)] "b" :=
  frame_other_keys _ _ 0 "a" "b" (by decide)

end Resource
